import Mathlib

/-!
Verification development for the Namster invitation server (src/server.js).

The server batch-generates personalized images: it extracts names from an
uploaded list file, renders each name onto a template, derives per-artifact
filenames, optionally converts PNG output to JPG, archives the results,
and tears down per-session filesystem state after download.

Strings from the JavaScript source are modelled as lists of characters
(`Path`), JavaScript numbers occurring in the relevant code paths as
integers (`Int`), absent or non-numeric (`NaN`) request fields as `none`,
and the filesystem as a finite set of paths (`Finset Path`).
-/

namespace Namster

/-- A string of the JavaScript program (file contents, tokens, paths),
modelled as its list of characters. -/
abbrev Path := List Char

/-! ## Name extraction (server.js lines 84–136) -/

/-- Whitespace as matched by JavaScript `trim` / `\s` on the ASCII range. -/
def isWS (c : Char) : Bool :=
  c = ' ' || c = '\t' || c = '\n' || c = '\r' || c = '\x0b' || c = '\x0c'

/-- JavaScript `String.prototype.trim`: strip leading and trailing whitespace. -/
def trimWS (l : Path) : Path :=
  ((l.dropWhile isWS).reverse.dropWhile isWS).reverse

/-- JavaScript `text.split(/\r?\n|;|,/)` from `parseNamesFromText`:
split on CRLF or LF or semicolon or comma, keeping empty fields. -/
def splitDelim : Path → List Path
  | [] => [[]]
  | '\r' :: '\n' :: rest =>
    [] :: splitDelim rest
  | '\n' :: rest => [] :: splitDelim rest
  | ';' :: rest => [] :: splitDelim rest
  | ',' :: rest => [] :: splitDelim rest
  | c :: rest =>
    match splitDelim rest with
    | [] => [[c]]
    | t :: ts => (c :: t) :: ts

/-- The denylist normalization in `parseNamesFromText`
(line 92): `t.toLowerCase().replace(/\s+/g, '')`. -/
def denyNorm (t : Path) : Path :=
  (t.map Char.toLower).filter (fun c => !(isWS c))

/-- Function `parseNamesFromText` (server.js lines 84–97): split on newline,
semicolon or comma; trim; drop empties; drop tokens whose lowercased,
whitespace-stripped form is `liste`. -/
def parseNamesFromText (text : Path) : List Path :=
  let raw := ((splitDelim text).map trimWS).filter (fun t => !t.isEmpty)
  raw.filter (fun t => !(denyNorm t == "liste".data))

/-- Written from the claim wording, for comparison with the source: drop
tokens that are a case-insensitive match of the denylist token `liste`
(no whitespace stripping inside the token). -/
def parseNamesClaimCI (text : Path) : List Path :=
  let raw := ((splitDelim text).map trimWS).filter (fun t => !t.isEmpty)
  raw.filter (fun t => !(t.map Char.toLower == "liste".data))

/-- The amended extraction pipeline, written from the amended claim wording:
split on newline, semicolon or comma; trim each token; keep a token when it
is non-empty and its lowercased form with all whitespace removed differs
from the denylist token `liste`. -/
def parseNamesAmended (text : Path) : List Path :=
  ((splitDelim text).map trimWS).filter
    (fun t => !t.isEmpty && !(denyNorm t == "liste".data))

/-- Function `extractNamesFromFile` (server.js lines 99–136), with the i/o of the
external libraries made explicit: `readRes` is the content of
`fs.readFileSync` (`none` when the read throws), `cells` the flattened
non-null cell strings produced by the spreadsheet library (`none` when it
throws), `docx` the raw text produced by the rich-text library (`none`
when it throws), `pdfText` the text produced by `pdf-parse` (`none` when
it throws).  The result is `none` when the JavaScript function throws to
its caller, and `some names` when it returns. -/
def extractNamesFromFile (ext : String) (readRes : Option Path)
    (cells : Option (List Path)) (docx : Option Path) (pdfText : Option Path) :
    Option (List Path) :=
  if ext = ".csv" then
    readRes.map parseNamesFromText
  else if ext = ".xlsx" ∨ ext = ".xls" then
    cells.map (fun cs => (cs.map trimWS).filter (fun t => !t.isEmpty))
  else if ext = ".docx" then
    docx.map parseNamesFromText
  else if ext = ".pdf" then
    -- the whole pdf branch is wrapped in try/catch; any throw yields []
    match readRes with
    | none => some []
    | some _ =>
      match pdfText with
      | none => some []
      | some txt => some (parseNamesFromText txt)
  else
    -- fallback: try reading as text, returning [] on a read error
    match readRes with
    | none => some []
    | some c => some (parseNamesFromText c)

/-! ## Artifact filenames (server.js line 230)

`${String(idx + 1).padStart(3, '0')}-${name.replace(/[^a-z0-9_-]+/gi, '_')}.${ext}` -/

/-- The decimal digit character for `d` (only used with `d < 10`). -/
def digCh (d : Nat) : Char :=
  if d = 0 then '0' else if d = 1 then '1' else if d = 2 then '2'
  else if d = 3 then '3' else if d = 4 then '4' else if d = 5 then '5'
  else if d = 6 then '6' else if d = 7 then '7' else if d = 8 then '8'
  else '9'

/-- Digits of `n`, with enough fuel to cover every division step. -/
def toDecFuel : Nat → Nat → Path
  | 0, _ => []
  | fuel + 1, n =>
    if n < 10 then [digCh n]
    else toDecFuel fuel (n / 10) ++ [digCh (n % 10)]

/-- JavaScript `String(n)` for a natural number: its decimal digits. -/
def toDec (n : Nat) : Path :=
  toDecFuel (n + 1) n

/-- Read decimal digits back into a number, from an accumulator. -/
def ofDecFrom (a : Nat) (l : Path) : Nat :=
  l.foldl (fun acc c => 10 * acc + (c.toNat - 48)) a

/-- JavaScript `s.padStart(3, '0')`. -/
def pad3 (s : Path) : Path :=
  List.replicate (3 - s.length) '0' ++ s

/-- The zero-padded index part of an artifact filename:
`String(idx + 1).padStart(3, '0')` for the 0-based loop index `idx`. -/
def padIdx (idx : Nat) : Path :=
  pad3 (toDec (idx + 1))

/-- A character kept by the sanitizer: inside `[a-z0-9_-]` case-insensitively. -/
def isSafeChar (c : Char) : Bool :=
  ('a' ≤ c && c ≤ 'z') || ('A' ≤ c && c ≤ 'Z') || ('0' ≤ c && c ≤ '9') ||
    c = '_' || c = '-'

/-- Worker for `name.replace(/[^a-z0-9_-]+/gi, '_')`: the flag records
whether the previous character was part of a replaced run. -/
def sanitizeGo : Bool → Path → Path
  | _, [] => []
  | inRun, c :: rest =>
    if isSafeChar c then c :: sanitizeGo false rest
    else if inRun then sanitizeGo true rest
    else '_' :: sanitizeGo true rest

/-- JavaScript `name.replace(/[^a-z0-9_-]+/gi, '_')`: each maximal run of characters
outside `[A-Za-z0-9_-]` becomes a single underscore. -/
def sanitizeName (name : Path) : Path :=
  sanitizeGo false name

/-- Written from the claim wording, for comparison with the source: each
character outside `[A-Za-z0-9_-]` is individually replaced by an
underscore. -/
def sanitizeClaimChar (name : Path) : Path :=
  name.map (fun c => if isSafeChar c then c else '_')

/-- The artifact filename derived at server.js line 230 for 0-based index
`idx`, raw name `name` and extension `ext`. -/
def filename (idx : Nat) (name : Path) (ext : Path) : Path :=
  padIdx idx ++ '-' :: (sanitizeName name ++ '.' :: ext)

/-- The filename under the claim's per-character reading of sanitization. -/
def filenameClaimChar (idx : Nat) (name : Path) (ext : Path) : Path :=
  padIdx idx ++ '-' :: (sanitizeClaimChar name ++ '.' :: ext)

/-! ## The batch window (server.js lines 221–226)

`offset` and `limit` arrive in the JSON body; `Number(x)` of an absent or
non-numeric field is `NaN`, modelled as `none`; in the code paths below a
finite value is used as an integer. -/

/-- JavaScript `Math.max(0, Number.isFinite(Number(offset)) ? Number(offset) : 0)`. -/
def windowStart (offset : Option Int) : Int :=
  max 0 (offset.getD 0)

/-- The exclusive end of the processed range (server.js lines 222–225):
`maxBatch = 50`; `batchSize = requested ? Math.max(1, Math.min(maxBatch,
requested)) : undefined` (note `0` is falsy); `endExclusive = batchSize ?
Math.min(s.names.length, start + batchSize) : s.names.length`. -/
def windowEnd (total : Nat) (offset limit : Option Int) : Int :=
  match limit with
  | none => (total : Int)
  | some l =>
    if l = 0 then (total : Int)
    else min (total : Int) (windowStart offset + max 1 (min 50 l))

/-- Number of loop iterations of `for (let idx = start; idx < endExclusive;
idx++)`. -/
def windowLen (total : Nat) (offset limit : Option Int) : Nat :=
  (windowEnd total offset limit - windowStart offset).toNat

/-- The 0-based indices processed by the generation loop, in order. -/
def windowIdx (total : Nat) (offset limit : Option Int) : List Nat :=
  List.range' (windowStart offset).toNat (windowLen total offset limit)

/-- The artifact filenames produced by one generation call, in loop order. -/
def genFilenames (names : List Path) (offset limit : Option Int) (ext : Path) :
    List Path :=
  (windowIdx names.length offset limit).map
    (fun idx => filename idx (names.getD idx []) ext)

/-! ## Filesystem effects of one generation call (server.js lines 208–258)

The filesystem is modelled as the finite set of existing file paths.
Writing a file inserts its path (overwriting an existing file leaves the
set unchanged); `fs.unlinkSync` erases a path. -/

/-- JavaScript `outPath.replace(/\.jpg$/, '.png')` (server.js line 237). -/
def replaceJpgSuffix (p : Path) : Path :=
  if ".jpg".data.isSuffixOf p then p.take (p.length - 4) ++ ".png".data
  else p

/-- The jpg branch of the artifact loop (server.js lines 236–241): compose
to a temporary PNG path, convert (`convertOk` tells whether
`sharp(...).jpeg(...).toBuffer()` succeeds), write the JPG, delete the
temporary file.  Returns whether the step completed and the resulting
filesystem; on a conversion failure the exception propagates before
`fs.unlinkSync` runs. -/
def jpgConvertStep (fsys : Finset Path) (outPath : Path) (convertOk : Bool) :
    Bool × Finset Path :=
  let tmpPng := replaceJpgSuffix outPath
  let fs1 := insert tmpPng fsys
  if convertOk then (true, (insert outPath fs1).erase tmpPng)
  else (false, fs1)

/-- One iteration of the artifact loop (server.js lines 233–242), with the
conversion succeeding: the PNG branch writes the artifact directly, the
JPG branch runs the temporary-file dance. -/
def writeArtifact (ext : Path) (fsys : Finset Path) (outPath : Path) :
    Finset Path :=
  if ext = "png".data then insert outPath fsys
  else (jpgConvertStep fsys outPath true).2

/-- JavaScript `path.join(workDir, sessionId, 'all')` (server.js line 215). -/
def outDirPath (wd : Path) (sid : String) : Path :=
  wd ++ '/' :: sid.data ++ "/all".data

/-- JavaScript `path.join(workDir, sessionId, 'invitations.zip')` (server.js line 246). -/
def zipPathOf (wd : Path) (sid : String) : Path :=
  wd ++ '/' :: sid.data ++ "/invitations.zip".data

/-- JavaScript `(format === 'jpg' || format === 'jpeg') ? 'jpg' : 'png'` (line 218). -/
def extOf (format : Option String) : Path :=
  if format = some "jpg" ∨ format = some "jpeg" then "jpg".data
  else "png".data

/-- The output paths written by the artifact loop of one generation call. -/
def genOutPaths (wd : Path) (sid : String) (names : List Path)
    (offset limit : Option Int) (format : Option String) : List Path :=
  (windowIdx names.length offset limit).map
    (fun idx => outDirPath wd sid ++ '/' ::
      filename idx (names.getD idx []) (extOf format))

/-- The filesystem effect of one successful `POST /api/generate` call
(server.js lines 208–258): run the artifact loop over the window, then
write the archive at the per-session zip path. -/
def generateCall (wd : Path) (sid : String) (names : List Path)
    (offset limit : Option Int) (format : Option String)
    (fsys : Finset Path) : Finset Path :=
  insert (zipPathOf wd sid)
    ((genOutPaths wd sid names offset limit format).foldl
      (writeArtifact (extOf format)) fsys)

/-! ## The SVG text layer (server.js lines 138–144) -/

/-- JavaScript `replace(/&/g, '&amp;')`. -/
def escAmp (l : Path) : Path :=
  l.flatMap (fun c => if c = '&' then "&amp;".data else [c])

/-- JavaScript `replace(/</g, '&lt;')`. -/
def escLt (l : Path) : Path :=
  l.flatMap (fun c => if c = '<' then "&lt;".data else [c])

/-- JavaScript `replace(/>/g, '&gt;')`. -/
def escGt (l : Path) : Path :=
  l.flatMap (fun c => if c = '>' then "&gt;".data else [c])

/-- The markup escaping applied to the rendered text (server.js line 139). -/
def escapeText (t : Path) : Path :=
  escGt (escLt (escAmp t))

/-- The attribute values interpolated into the SVG string built by
`buildSVGText` (server.js lines 138–144). -/
structure SVGSpec where
  text : Path
  x : Int
  y : Int
  fontFamily : String
  fontSize : Int
  fill : String
deriving DecidableEq

/-- Function `buildSVGText` (server.js lines 138–144): `safeText` is the escaped
text, `ff = fontFamily || 'Arial'`, `fsPx = Number(fontSize) || 48`,
`fill = color || '#000000'`.  An absent or non-numeric font size is
`none` (JavaScript `NaN`, which is falsy); the empty string and `0` are
falsy as well. -/
def buildSVGText (text : Path) (x y : Int) (fontFamily : Option String)
    (fontSize : Option Int) (color : Option String) : SVGSpec :=
  { text := escapeText text
    x := x
    y := y
    fontFamily :=
      match fontFamily with
      | none => "Arial"
      | some f => if f = "" then "Arial" else f
    fontSize :=
      match fontSize with
      | none => 48
      | some v => if v = 0 then 48 else v
    fill :=
      match color with
      | none => "#000000"
      | some c => if c = "" then "#000000" else c }

/-! ## Sessions, preview, cleanup, download
(server.js lines 57–82, 184–206, 265–275) -/

/-- A session record (server.js lines 60–71): template path, list path,
extracted names, and the registered cleanup paths. -/
structure Session where
  modelPath : Option Path
  listPath : Option Path
  names : List Path
  cleanup : List Path
deriving DecidableEq

/-- The overlay fields taken from the request body for a preview. -/
structure OverlayParams where
  x : Int
  y : Int
  fontFamily : Option String
  fontSize : Option Int
  color : Option String
deriving DecidableEq

/-- Handler `POST /api/test` (server.js lines 184–206): an unknown session or a
session without template or names is a client error; otherwise the text
layer is built for `s.names[0]` with the requested overlay parameters. -/
def testHandler (sess : Option Session) (p : OverlayParams) :
    Except String SVGSpec :=
  match sess with
  | none => .error "Invalid session"
  | some s =>
    if s.modelPath = none ∨ s.names = [] then .error "Missing model or names"
    else .ok (buildSVGText (s.names.headD []) p.x p.y p.fontFamily p.fontSize
      p.color)

/-- The in-memory session map and the filesystem. -/
structure ServerState where
  sessions : List (String × Session)
  fsys : Finset Path
deriving DecidableEq

/-- JavaScript `sessions.get(id)`. -/
def getSession (st : ServerState) (id : String) : Option Session :=
  (st.sessions.find? (fun e => e.1 == id)).map (fun e => e.2)

/-- One iteration of the cleanup loop (server.js lines 76–80):
`if (p && fs.existsSync(p)) fs.rmSync(p, { recursive: true, force: true })`.
The recursive removal deletes the path and everything below it. -/
def rmStep (fsys : Finset Path) (p : Path) : Finset Path :=
  if p = [] then fsys
  else if p ∈ fsys then
    fsys.filter (fun q => ¬(q = p ∨ (p ++ ['/']).isPrefixOf q = true))
  else fsys

/-- Function `cleanupSession` (server.js lines 73–82): best-effort removal of every
registered path, then eviction of the session entry. -/
def cleanupSession (st : ServerState) (id : String) : ServerState :=
  match getSession st id with
  | none => st
  | some s =>
    { sessions := st.sessions.filter (fun e => !(e.1 == id))
      fsys := s.cleanup.foldl rmStep st.fsys }

/-- Outcome of a `GET /api/download/:sid` request. -/
inductive DownloadOutcome where
  | invalid
  | zipMissing
  | served
deriving DecidableEq

/-- Handler `GET /api/download/:sid` (server.js lines 265–275): unknown session is
a client error; a missing zip is a 404 without cleanup; otherwise the
download callback runs `cleanupSession` after the transfer attempt,
whether the transfer succeeded or failed. -/
def downloadHandler (wd : Path) (st : ServerState) (sid : String) :
    DownloadOutcome × ServerState :=
  match getSession st sid with
  | none => (.invalid, st)
  | some _ =>
    if zipPathOf wd sid ∈ st.fsys then (.served, cleanupSession st sid)
    else (.zipMissing, st)

/-! ## Decimal digits: round trip and digit-character facts -/

theorem digCh_val {d : Nat} (h : d < 10) : (digCh d).toNat - 48 = d := by
  interval_cases d <;> decide

theorem digCh_isDigit {d : Nat} (h : d < 10) : (digCh d).isDigit = true := by
  interval_cases d <;> decide

theorem ofDecFrom_append (a : Nat) (l m : Path) :
    ofDecFrom a (l ++ m) = ofDecFrom (ofDecFrom a l) m := by
  simp [ofDecFrom]

theorem toDecFuel_val :
    ∀ fuel n : Nat, n < fuel → ofDecFrom 0 (toDecFuel fuel n) = n := by
  intro fuel
  induction fuel with
  | zero => omega
  | succ f ih =>
    intro n hn
    rw [toDecFuel]
    split
    · next h10 =>
      show 10 * 0 + ((digCh n).toNat - 48) = n
      rw [digCh_val h10]
      omega
    · next h10 =>
      rw [ofDecFrom_append, ih (n / 10) (by omega)]
      show 10 * (n / 10) + ((digCh (n % 10)).toNat - 48) = n
      rw [digCh_val (by omega)]
      omega

theorem ofDec_toDec (n : Nat) : ofDecFrom 0 (toDec n) = n :=
  toDecFuel_val (n + 1) n (Nat.lt_succ_self n)

theorem ofDecFrom_zeros (k : Nat) : ofDecFrom 0 (List.replicate k '0') = 0 := by
  induction k with
  | zero => rfl
  | succ k ih =>
    rw [List.replicate_succ]
    show ofDecFrom (10 * 0 + ('0'.toNat - 48)) (List.replicate k '0') = 0
    exact ih

theorem ofDecFrom_pad3 (l : Path) : ofDecFrom 0 (pad3 l) = ofDecFrom 0 l := by
  rw [pad3, ofDecFrom_append, ofDecFrom_zeros]

theorem padIdx_inj {i j : Nat} (h : padIdx i = padIdx j) : i = j := by
  have hv := congrArg (ofDecFrom 0) h
  rw [padIdx, padIdx, ofDecFrom_pad3, ofDecFrom_pad3, ofDec_toDec, ofDec_toDec]
    at hv
  omega

theorem toDecFuel_isDigit :
    ∀ fuel n : Nat, ∀ c ∈ toDecFuel fuel n, c.isDigit = true := by
  intro fuel
  induction fuel with
  | zero => intro n c hc; simp [toDecFuel] at hc
  | succ f ih =>
    intro n c hc
    rw [toDecFuel] at hc
    split at hc
    · next h10 =>
      rw [List.mem_singleton] at hc
      exact hc ▸ digCh_isDigit h10
    · next h10 =>
      rcases List.mem_append.1 hc with h | h
      · exact ih _ _ h
      · rw [List.mem_singleton] at h
        exact h ▸ digCh_isDigit (by omega)

theorem padIdx_isDigit {i : Nat} : ∀ c ∈ padIdx i, c.isDigit = true := by
  intro c hc
  rcases List.mem_append.1 hc with h | h
  · rw [List.eq_of_mem_replicate h]; decide
  · exact toDecFuel_isDigit _ _ c h

/-! ## Filename uniqueness through the digit prefix -/

theorem takeWhile_append_all {p : Char → Bool} :
    ∀ {l₁ l₂ : Path}, (∀ c ∈ l₁, p c = true) →
      (l₁ ++ l₂).takeWhile p = l₁ ++ l₂.takeWhile p := by
  intro l₁
  induction l₁ with
  | nil => intro l₂ _; simp
  | cons a l ih =>
    intro l₂ h
    rw [List.cons_append, List.takeWhile_cons, h a (List.mem_cons_self a l),
      if_pos rfl, List.cons_append, ih (fun c hc => h c (List.mem_cons_of_mem a hc))]

theorem takeWhile_filename (i : Nat) (name ext : Path) :
    (filename i name ext).takeWhile Char.isDigit = padIdx i := by
  rw [filename, takeWhile_append_all padIdx_isDigit, List.takeWhile_cons,
    if_neg (by decide), List.append_nil]

theorem filename_inj {i j : Nat} {n₁ n₂ e₁ e₂ : Path}
    (h : filename i n₁ e₁ = filename j n₂ e₂) : i = j := by
  have hp := congrArg (List.takeWhile Char.isDigit) h
  rw [takeWhile_filename, takeWhile_filename] at hp
  exact padIdx_inj hp

/-! ## Extension suffixes and the temporary PNG path -/

theorem append_ne_of_suffix_ne {a b s t : Path} (hlen : s.length = t.length)
    (hne : s ≠ t) : a ++ s ≠ b ++ t := by
  intro h
  exact hne (List.append_inj' h hlen).2

theorem replaceJpgSuffix_append (b : Path) :
    replaceJpgSuffix (b ++ ".jpg".data) = b ++ ".png".data := by
  rw [replaceJpgSuffix, if_pos]
  · rw [List.length_append]
    show (b ++ ".jpg".data).take (b.length + 4 - 4) ++ ".png".data = _
    rw [Nat.add_sub_cancel, List.take_left]
  · exact List.isSuffixOf_iff_suffix.2 (List.suffix_append b ".jpg".data)

/-- An output path of the jpg branch, split as stem plus `.jpg`. -/
theorem outPath_jpg_stem (pre : Path) (i : Nat) (name : Path) :
    pre ++ '/' :: filename i name "jpg".data =
      (pre ++ '/' :: (padIdx i ++ '-' :: sanitizeName name)) ++ ".jpg".data := by
  rw [filename]
  simp

theorem zipPathOf_stem (wd : Path) (sid : String) :
    zipPathOf wd sid =
      (wd ++ '/' :: sid.data ++ "/invitations".data) ++ ".zip".data := by
  rw [zipPathOf]
  simp

/-! ## The artifact loop as a fold over the filesystem -/

theorem writeArtifact_mem_cases {ext : Path} {s : Finset Path} {p x : Path}
    (h : x ∈ writeArtifact ext s p) : x ∈ s ∨ x = p := by
  rw [writeArtifact] at h
  split at h
  · rcases Finset.mem_insert.1 h with h | h
    · exact Or.inr h
    · exact Or.inl h
  · rw [jpgConvertStep] at h
    simp only [] at h
    rcases Finset.mem_erase.1 h with ⟨hne, hmem⟩
    rcases Finset.mem_insert.1 hmem with h | h
    · exact Or.inr h
    · rcases Finset.mem_insert.1 h with h | h
      · exact absurd h hne
      · exact Or.inl h

theorem writeArtifact_mem_keep {ext : Path} {s : Finset Path} {p x : Path}
    (hx : x ∈ s) (hne : x ≠ replaceJpgSuffix p) : x ∈ writeArtifact ext s p := by
  rw [writeArtifact]
  split
  · exact Finset.mem_insert_of_mem hx
  · rw [jpgConvertStep]
    exact Finset.mem_erase.2 ⟨hne,
      Finset.mem_insert_of_mem (Finset.mem_insert_of_mem hx)⟩

theorem writeArtifact_self_mem {ext : Path} {s : Finset Path} {p : Path}
    (hne : p ≠ replaceJpgSuffix p) : p ∈ writeArtifact ext s p := by
  rw [writeArtifact]
  split
  · exact Finset.mem_insert_self p s
  · rw [jpgConvertStep]
    exact Finset.mem_erase.2 ⟨hne, Finset.mem_insert_self p _⟩

theorem writeArtifact_tmp_not_mem {ext : Path} {s : Finset Path} {p : Path}
    (hext : ext ≠ "png".data) : replaceJpgSuffix p ∉ writeArtifact ext s p := by
  rw [writeArtifact, if_neg hext, jpgConvertStep]
  exact Finset.not_mem_erase _ _

theorem fold_mem_sub {ext : Path} :
    ∀ (L : List Path) (s : Finset Path) (x : Path),
      x ∈ L.foldl (writeArtifact ext) s → x ∈ s ∨ x ∈ L := by
  intro L
  induction L with
  | nil => intro s x h; exact Or.inl h
  | cons a L ih =>
    intro s x h
    rcases ih _ x h with h' | h'
    · rcases writeArtifact_mem_cases h' with h'' | h''
      · exact Or.inl h''
      · exact Or.inr (h'' ▸ List.mem_cons_self a L)
    · exact Or.inr (List.mem_cons_of_mem a h')

theorem fold_mem_keep {ext : Path} :
    ∀ (L : List Path) (s : Finset Path) (x : Path), x ∈ s →
      (∀ p ∈ L, x ≠ replaceJpgSuffix p) → x ∈ L.foldl (writeArtifact ext) s := by
  intro L
  induction L with
  | nil => intro s x hx _; exact hx
  | cons a L ih =>
    intro s x hx h
    exact ih _ x (writeArtifact_mem_keep hx (h a (List.mem_cons_self a L)))
      (fun p hp => h p (List.mem_cons_of_mem a hp))

theorem fold_not_mem {ext : Path} :
    ∀ (L : List Path) (s : Finset Path) (x : Path), x ∉ s →
      (∀ p ∈ L, x ≠ p) → x ∉ L.foldl (writeArtifact ext) s := by
  intro L
  induction L with
  | nil => intro s x hx _; exact hx
  | cons a L ih =>
    intro s x hx h hmem
    refine ih _ x (fun hstep => ?_) (fun p hp => h p (List.mem_cons_of_mem a hp))
      hmem
    rcases writeArtifact_mem_cases hstep with h' | h'
    · exact hx h'
    · exact h a (List.mem_cons_self a L) h'

theorem fold_out_mem {ext : Path} :
    ∀ (L : List Path) (s : Finset Path),
      (∀ p ∈ L, ∀ q ∈ L, q ≠ replaceJpgSuffix p) →
      ∀ p ∈ L, p ∈ L.foldl (writeArtifact ext) s := by
  intro L
  induction L with
  | nil => intro s _ p hp; simp at hp
  | cons a L ih =>
    intro s hsep p hp
    rcases List.mem_cons.1 hp with rfl | hp'
    · exact fold_mem_keep L _ p
        (writeArtifact_self_mem (fun h =>
          hsep p (List.mem_cons_self p L) p (List.mem_cons_self p L) h))
        (fun q hq => hsep q (List.mem_cons_of_mem p hq) p (List.mem_cons_self p L))
    · exact ih _ (fun r hr q hq =>
        hsep r (List.mem_cons_of_mem a hr) q (List.mem_cons_of_mem a hq)) p hp'

theorem fold_tmp_not_mem {ext : Path} (hext : ext ≠ "png".data) :
    ∀ (L : List Path) (s : Finset Path),
      (∀ p ∈ L, ∀ q ∈ L, q ≠ replaceJpgSuffix p) →
      ∀ p ∈ L, replaceJpgSuffix p ∉ L.foldl (writeArtifact ext) s := by
  intro L
  induction L with
  | nil => intro s _ p hp; simp at hp
  | cons a L ih =>
    intro s hsep p hp
    rcases List.mem_cons.1 hp with rfl | hp'
    · exact fold_not_mem L _ _ (writeArtifact_tmp_not_mem hext)
        (fun q hq h => hsep p (List.mem_cons_self p L) q
          (List.mem_cons_of_mem p hq) h.symm)
    · exact ih _ (fun r hr q hq =>
        hsep r (List.mem_cons_of_mem a hr) q (List.mem_cons_of_mem a hq)) p hp'

theorem fold_second_id {ext : Path} (hext : ext ≠ "png".data) :
    ∀ (L : List Path) (s : Finset Path),
      (∀ p ∈ L, p ∈ s ∧ replaceJpgSuffix p ∉ s ∧ p ≠ replaceJpgSuffix p) →
      L.foldl (writeArtifact ext) s = s := by
  intro L
  induction L with
  | nil => intro s _; rfl
  | cons a L ih =>
    intro s h
    obtain ⟨ha, htmp, hne⟩ := h a (List.mem_cons_self a L)
    have hstep : writeArtifact ext s a = s := by
      rw [writeArtifact, if_neg hext, jpgConvertStep]
      simp only []
      rw [Finset.insert_eq_self.2 (Finset.mem_insert_of_mem ha),
        Finset.erase_insert htmp]
      rfl
    rw [List.foldl_cons, hstep]
    exact ih s (fun p hp => h p (List.mem_cons_of_mem a hp))

theorem fold_png_mono :
    ∀ (L : List Path) (s : Finset Path) (x : Path), x ∈ s →
      x ∈ L.foldl (writeArtifact "png".data) s := by
  intro L
  induction L with
  | nil => intro s x hx; exact hx
  | cons a L ih =>
    intro s x hx
    refine ih _ x ?_
    rw [writeArtifact, if_pos rfl]
    exact Finset.mem_insert_of_mem hx

theorem fold_png_mem :
    ∀ (L : List Path) (s : Finset Path) (p : Path), p ∈ L →
      p ∈ L.foldl (writeArtifact "png".data) s := by
  intro L
  induction L with
  | nil => intro s p hp; simp at hp
  | cons a L ih =>
    intro s p hp
    rcases List.mem_cons.1 hp with rfl | hp'
    · refine fold_png_mono L _ p ?_
      rw [writeArtifact, if_pos rfl]
      exact Finset.mem_insert_self p s
    · exact ih _ p hp'

theorem fold_png_id :
    ∀ (L : List Path) (s : Finset Path), (∀ p ∈ L, p ∈ s) →
      L.foldl (writeArtifact "png".data) s = s := by
  intro L
  induction L with
  | nil => intro s _; rfl
  | cons a L ih =>
    intro s h
    have hstep : writeArtifact "png".data s a = s := by
      rw [writeArtifact, if_pos rfl,
        Finset.insert_eq_self.2 (h a (List.mem_cons_self a L))]
    rw [List.foldl_cons, hstep]
    exact ih s (fun p hp => h p (List.mem_cons_of_mem a hp))

/-! ## Cleanup: the removal fold and session eviction -/

theorem rmStep_subset {s : Finset Path} {p x : Path} (h : x ∈ rmStep s p) :
    x ∈ s := by
  rw [rmStep] at h
  split at h
  · exact h
  · split at h
    · exact (Finset.mem_filter.1 h).1
    · exact h

theorem rmStep_self {s : Finset Path} {p : Path} (hp : p ≠ []) :
    p ∉ rmStep s p := by
  rw [rmStep, if_neg hp]
  split
  · intro hmem
    exact (Finset.mem_filter.1 hmem).2 (Or.inl rfl)
  · next hns => exact hns

theorem fold_rm_subset :
    ∀ (L : List Path) (s : Finset Path) (x : Path),
      x ∈ L.foldl rmStep s → x ∈ s := by
  intro L
  induction L with
  | nil => intro s x h; exact h
  | cons a L ih =>
    intro s x h
    exact rmStep_subset (ih _ x h)

theorem fold_rm_removed :
    ∀ (L : List Path) (s : Finset Path) (p : Path), p ∈ L → p ≠ [] →
      p ∉ L.foldl rmStep s := by
  intro L
  induction L with
  | nil => intro s p hp _; simp at hp
  | cons a L ih =>
    intro s p hp hne
    rcases List.mem_cons.1 hp with rfl | hp'
    · intro hmem
      exact rmStep_self hne (fold_rm_subset L _ p hmem)
    · exact ih _ p hp' hne

theorem getSession_cleanup (st : ServerState) (id : String) :
    getSession (cleanupSession st id) id = none := by
  rcases h : getSession st id with _ | s
  · rw [cleanupSession, h]
    exact h
  · rw [cleanupSession, h, getSession]
    have hnone : (st.sessions.filter (fun e => !(e.1 == id))).find?
        (fun e => e.1 == id) = none := by
      rw [List.find?_eq_none]
      intro x hx
      have := (List.mem_filter.1 hx).2
      simp at this
      simp [this]
    rw [hnone]
    rfl

/-! ## Sample data for concrete instantiations -/

/-- A populated session used in concrete instantiations. -/
def sampleSession : Session :=
  { modelPath := some "m".data
    listPath := some "l".data
    names := ["A".data]
    cleanup := ["up/m".data, "work/s1".data] }

/-- A server state holding `sampleSession` under id `s1`, with its uploaded
file, working directory and archive present on the filesystem. -/
def sampleState : ServerState :=
  { sessions := [("s1", sampleSession)]
    fsys := {"up/m".data, "work/s1".data, "work/s1/invitations.zip".data} }

/-! ## Claims -/

/-- Claim C1, counterexample: on the input `Li ste` the code's extraction
drops the token (its lowercased, whitespace-stripped form is `liste`),
while dropping only case-insensitive matches of the denylist token, as the
claim states, would keep it. -/
theorem claim_C1_cex :
    parseNamesFromText "Li ste".data = []
    ∧ parseNamesClaimCI "Li ste".data = ["Li ste".data]
    ∧ parseNamesFromText "Li ste".data ≠ parseNamesClaimCI "Li ste".data := by
  refine ⟨by decide, by decide, by decide⟩

/-- Claim C1 (amended): extraction splits on newline, semicolon or comma,
trims each token, drops empty tokens, and drops tokens whose lowercased
form with all whitespace removed equals the denylist token `liste`,
yielding exactly the remaining trimmed tokens in their original order; in
particular `Alice\nBob\n,  ,\nListe` yields exactly `[Alice, Bob]`. -/
theorem claim_C1_theorem :
    (∀ text : Path, parseNamesFromText text = parseNamesAmended text)
    ∧ parseNamesFromText "Alice\nBob\n,  ,\nListe".data =
        ["Alice".data, "Bob".data] := by
  constructor
  · intro text
    rw [parseNamesFromText, parseNamesAmended, List.filter_filter]
    exact List.filter_congr (fun t _ => Bool.and_comm _ _)
  · decide

/-- Claim C2, counterexample: with 51 names, no offset and no limit, the
generation loop processes all 51 names, exceeding the hard per-request cap
of 50, contrary to the claim that the effective window length never
exceeds the cap. -/
theorem claim_C2_cex :
    windowLen 51 none none = 51 ∧ ¬(windowLen 51 none none ≤ 50) := by
  refine ⟨by decide, by decide⟩

/-- Claim C2 (amended): the effective window length never exceeds
`total − offset` and is 0 when the clamped offset reaches the total; the
hard per-request cap of 50 (and the requested limit) bound the window only
when a positive limit is supplied — an omitted (or zero/non-numeric) limit
processes all remaining names, possibly more than the cap. -/
theorem claim_C2_theorem :
    ∀ (total : Nat) (offset limit : Option Int),
      ((total : Int) ≤ windowStart offset → windowLen total offset limit = 0)
      ∧ windowLen total offset limit ≤ total - (windowStart offset).toNat
      ∧ (∀ l : Int, limit = some l → 1 ≤ l →
          (windowLen total offset limit : Int) ≤ min l 50) := by
  intro total offset limit
  have hw : (0 : Int) ≤ windowStart offset := le_max_left 0 _
  refine ⟨?_, ?_, ?_⟩
  · intro h
    rcases limit with _ | l
    · simp only [windowLen, windowEnd]
      omega
    · simp only [windowLen, windowEnd]
      split_ifs <;> omega
  · rcases limit with _ | l
    · simp only [windowLen, windowEnd]
      omega
    · simp only [windowLen, windowEnd]
      split_ifs <;> omega
  · intro l hl hl1
    subst hl
    simp only [windowLen, windowEnd]
    rw [if_neg (by omega)]
    omega

/-- Claim C2, witness: offset 200 past a 120-name list gives an empty
window, and a supplied limit of 10 bounds the window by `min 10 50`. -/
theorem claim_C2_wit :
    windowLen 120 (some 200) (some 10) = 0
    ∧ (windowLen 120 (some 200) (some 10) : Int) ≤ min 10 50 :=
  ⟨(claim_C2_theorem 120 (some 200) (some 10)).1 (by decide),
   (claim_C2_theorem 120 (some 200) (some 10)).2.2 10 rfl (by decide)⟩

/-- Claim C3, counterexample: the source replaces each maximal run of
characters outside `[A-Za-z0-9_-]` by a single underscore, not each such
character individually: for the name `a!!b` the derived filename is
`001-a_b.png`, while per-character replacement would give `001-a__b.png`. -/
theorem claim_C3_cex :
    filename 0 "a!!b".data "png".data ≠ filenameClaimChar 0 "a!!b".data "png".data
    ∧ filename 0 "a!!b".data "png".data = "001-a_b.png".data
    ∧ filenameClaimChar 0 "a!!b".data "png".data = "001-a__b.png".data := by
  refine ⟨by decide, by decide, by decide⟩

/-- Claim C3 (amended): the k-th artifact of a window is named by the
absolute 1-based index `offset + k + 1` zero-padded to 3 digits, a hyphen,
the name with each maximal run of characters outside `[A-Za-z0-9_-]`
replaced by a single underscore, and the output extension — numbering is
absolute, so a batch starting at offset 50 names its first file `051-…`. -/
theorem claim_C3_theorem :
    ∀ (names : List Path) (offset limit : Option Int) (ext : Path) (k : Nat),
      k < windowLen names.length offset limit →
      (genFilenames names offset limit ext)[k]? =
        some (pad3 (toDec ((windowStart offset).toNat + k + 1)) ++ '-' ::
          (sanitizeName (names.getD ((windowStart offset).toNat + k) [])
            ++ '.' :: ext)) := by
  intro names offset limit ext k hk
  rw [genFilenames, windowIdx, List.getElem?_map, List.getElem?_range' _ _ hk]
  simp [filename, padIdx]

set_option maxRecDepth 4000 in
/-- Claim C3, witness: a batch over 120 names at offset 50 with limit 10
names its first artifact `051-x.jpg`. -/
theorem claim_C3_wit :
    0 < windowLen 120 (some 50) (some 10)
    ∧ (genFilenames (List.replicate 120 ['x']) (some 50) (some 10)
        "jpg".data)[0]? = some "051-x.jpg".data := by
  refine ⟨by decide, ?_⟩
  have h := claim_C3_theorem (List.replicate 120 ['x']) (some 50) (some 10)
    "jpg".data 0 (by decide)
  rw [h]
  decide

/-- Claim C7: within a window, artifact filenames at distinct indices are
distinct, whatever the two raw names are — the zero-padded index prefix
alone separates them, even for identical or collision-prone names. -/
theorem claim_C7_theorem :
    ∀ (i j : Nat) (n₁ n₂ ext : Path), i ≠ j →
      filename i n₁ ext ≠ filename j n₂ ext :=
  fun _ _ _ _ _ hne heq => hne (filename_inj heq)

/-- Claim C7, witness: indices 0 and 1 with the same raw name give
different filenames. -/
theorem claim_C7_wit :
    (0 : Nat) ≠ 1
    ∧ filename 0 "Ana Lu".data "png".data ≠ filename 1 "Ana Lu".data "png".data :=
  ⟨by decide, claim_C7_theorem 0 1 "Ana Lu".data "Ana Lu".data "png".data
    (by decide)⟩

/-- Claim C8: repeating a generation call with identical parameters on an
untouched session leaves the filesystem exactly as after the first call —
artifacts and archive are overwritten in place, nothing accumulates; the
artifact path list itself depends only on the parameters, so count and
naming are identical as well. -/
theorem claim_C8_theorem :
    ∀ (wd : Path) (sid : String) (names : List Path) (offset limit : Option Int)
      (format : Option String) (fsys : Finset Path),
      generateCall wd sid names offset limit format
          (generateCall wd sid names offset limit format fsys)
        = generateCall wd sid names offset limit format fsys := by
  intro wd sid names offset limit format fsys
  by_cases hf : format = some "jpg" ∨ format = some "jpeg"
  · have hext : extOf format = "jpg".data := by rw [extOf, if_pos hf]
    have hextne : extOf format ≠ "png".data := by
      rw [hext]
      decide
    have hform : ∀ p ∈ genOutPaths wd sid names offset limit format,
        ∃ b, p = b ++ ".jpg".data := by
      intro p hp
      rw [genOutPaths] at hp
      rcases List.mem_map.1 hp with ⟨i, _, rfl⟩
      rw [hext]
      exact ⟨_, outPath_jpg_stem _ _ _⟩
    have hsep : ∀ p ∈ genOutPaths wd sid names offset limit format,
        ∀ q ∈ genOutPaths wd sid names offset limit format,
          q ≠ replaceJpgSuffix p := by
      intro p hp q hq
      obtain ⟨bp, rfl⟩ := hform p hp
      obtain ⟨bq, rfl⟩ := hform q hq
      rw [replaceJpgSuffix_append]
      exact append_ne_of_suffix_ne (by decide) (by decide)
    have hzip : ∀ p ∈ genOutPaths wd sid names offset limit format,
        replaceJpgSuffix p ≠ zipPathOf wd sid := by
      intro p hp
      obtain ⟨bp, rfl⟩ := hform p hp
      rw [replaceJpgSuffix_append, zipPathOf_stem]
      exact append_ne_of_suffix_ne (by decide) (by decide)
    rw [generateCall, generateCall]
    have hkey : ∀ p ∈ genOutPaths wd sid names offset limit format,
        p ∈ insert (zipPathOf wd sid)
            ((genOutPaths wd sid names offset limit format).foldl
              (writeArtifact (extOf format)) fsys)
        ∧ replaceJpgSuffix p ∉ insert (zipPathOf wd sid)
            ((genOutPaths wd sid names offset limit format).foldl
              (writeArtifact (extOf format)) fsys)
        ∧ p ≠ replaceJpgSuffix p := by
      intro p hp
      refine ⟨Finset.mem_insert_of_mem (fold_out_mem _ fsys hsep p hp), ?_,
        fun h => hsep p hp p hp h⟩
      intro hmem
      rcases Finset.mem_insert.1 hmem with h | h
      · exact hzip p hp h
      · exact fold_tmp_not_mem hextne _ fsys hsep p hp h
    rw [fold_second_id hextne _ _ hkey,
      Finset.insert_eq_self.2 (Finset.mem_insert_self _ _)]
  · have hext : extOf format = "png".data := by rw [extOf, if_neg hf]
    rw [generateCall, generateCall, hext]
    have hkey : ∀ p ∈ genOutPaths wd sid names offset limit format,
        p ∈ insert (zipPathOf wd sid)
            ((genOutPaths wd sid names offset limit format).foldl
              (writeArtifact "png".data) fsys) :=
      fun p hp => Finset.mem_insert_of_mem (fold_png_mem _ fsys p hp)
    rw [fold_png_id _ _ hkey,
      Finset.insert_eq_self.2 (Finset.mem_insert_self _ _)]

/-- Claim C4, counterexample: when the jpg conversion fails, the exception
propagates before `fs.unlinkSync` runs, so the temporary PNG is left
behind — starting from an empty directory, a failed conversion of
`001-Alice.jpg` leaves `001-Alice.png` on disk. -/
theorem claim_C4_cex :
    (jpgConvertStep (∅ : Finset Path) "001-Alice.jpg".data false).1 = false
    ∧ "001-Alice.png".data ∈
        (jpgConvertStep (∅ : Finset Path) "001-Alice.jpg".data false).2 := by
  refine ⟨by decide, by decide⟩

/-- Claim C4 (amended): for jpg output each artifact is composed to a
temporary PNG path, converted at fixed quality, written to the final path,
and the temporary file deleted, so a completed call leaves only files that
pre-existed, the archive, or `.jpg` artifacts in the filesystem; but a
conversion failure aborts before the deletion and leaves the temporary PNG
file behind. -/
theorem claim_C4_theorem :
    ∀ (fsys : Finset Path) (stem wd : Path) (sid : String) (names : List Path)
      (offset limit : Option Int),
      (stem ++ ".png".data ∉ (jpgConvertStep fsys (stem ++ ".jpg".data) true).2
        ∧ stem ++ ".jpg".data ∈ (jpgConvertStep fsys (stem ++ ".jpg".data) true).2)
      ∧ (jpgConvertStep fsys (stem ++ ".jpg".data) false).2
          = insert (stem ++ ".png".data) fsys
      ∧ (∀ x ∈ generateCall wd sid names offset limit (some "jpg") fsys,
          x ∈ fsys ∨ x = zipPathOf wd sid ∨ ∃ b, x = b ++ ".jpg".data) := by
  intro fsys stem wd sid names offset limit
  have hrepl := replaceJpgSuffix_append stem
  refine ⟨⟨?_, ?_⟩, ?_, ?_⟩
  · show stem ++ ".png".data ∉
      (insert (stem ++ ".jpg".data)
        (insert (replaceJpgSuffix (stem ++ ".jpg".data)) fsys)).erase
        (replaceJpgSuffix (stem ++ ".jpg".data))
    rw [hrepl]
    exact Finset.not_mem_erase _ _
  · show stem ++ ".jpg".data ∈
      (insert (stem ++ ".jpg".data)
        (insert (replaceJpgSuffix (stem ++ ".jpg".data)) fsys)).erase
        (replaceJpgSuffix (stem ++ ".jpg".data))
    rw [hrepl]
    exact Finset.mem_erase.2
      ⟨append_ne_of_suffix_ne (by decide) (by decide), Finset.mem_insert_self _ _⟩
  · show insert (replaceJpgSuffix (stem ++ ".jpg".data)) fsys
      = insert (stem ++ ".png".data) fsys
    rw [hrepl]
  · intro x hx
    rw [generateCall] at hx
    rcases Finset.mem_insert.1 hx with rfl | hx'
    · exact Or.inr (Or.inl rfl)
    · rcases fold_mem_sub _ fsys x hx' with h | h
      · exact Or.inl h
      · refine Or.inr (Or.inr ?_)
        rw [genOutPaths] at h
        rcases List.mem_map.1 h with ⟨i, _, rfl⟩
        have hext : extOf (some "jpg") = "jpg".data := by
          rw [extOf, if_pos (Or.inl rfl)]
        rw [hext]
        exact ⟨_, outPath_jpg_stem _ _ _⟩

/-- Claim C4, witness: after a completed jpg-format generation call on a
one-name session over an empty directory, the archive path is among the
results and matches the amended characterization. -/
theorem claim_C4_wit :
    zipPathOf "work".data "s" ∈
      generateCall "work".data "s" [['a']] none none (some "jpg") ∅
    ∧ (zipPathOf "work".data "s" ∈ (∅ : Finset Path)
        ∨ zipPathOf "work".data "s" = zipPathOf "work".data "s"
        ∨ ∃ b, zipPathOf "work".data "s" = b ++ ".jpg".data) :=
  ⟨by decide,
   (claim_C4_theorem ∅ [] "work".data "s" [['a']] none none).2.2 _ (by decide)⟩

/-- Claim C5, counterexample: for a `.pdf` source the whole branch —
including the `fs.readFileSync` call — sits inside try/catch, so a file
that cannot be read at all yields the empty name list instead of
surfacing a fatal read error to the caller. -/
theorem claim_C5_cex :
    extractNamesFromFile ".pdf" none none none none = some []
    ∧ extractNamesFromFile ".pdf" none none none none ≠ none := by
  refine ⟨by decide, by decide⟩

/-- Claim C5 (amended): a read failure is surfaced as a fatal error for
`.csv`, `.xlsx`, `.xls` and `.docx` sources; for `.pdf` and
fallback-extension sources a read failure is swallowed and degrades to the
empty name sequence, as does a pdf parse failure (logged warning only). -/
theorem claim_C5_theorem :
    ∀ (c : Path) (cells : Option (List Path)) (docx pdfText : Option Path)
      (r : Option Path),
      extractNamesFromFile ".csv" none cells docx pdfText = none
      ∧ extractNamesFromFile ".csv" (some c) cells docx pdfText
          = some (parseNamesFromText c)
      ∧ extractNamesFromFile ".xlsx" r none docx pdfText = none
      ∧ extractNamesFromFile ".xls" r none docx pdfText = none
      ∧ extractNamesFromFile ".docx" r cells none pdfText = none
      ∧ extractNamesFromFile ".pdf" none cells docx pdfText = some []
      ∧ extractNamesFromFile ".pdf" (some c) cells docx none = some []
      ∧ extractNamesFromFile ".txt" none cells docx pdfText = some [] := by
  intro c cells docx pdfText r
  exact ⟨rfl, rfl, rfl, rfl, rfl, rfl, rfl, rfl⟩

/-- Claim C6: destroying a session (as the download handler does once
after a download attempt, successful or not) removes every non-empty path
registered for cleanup from the filesystem and evicts the session, so a
subsequent lookup returns not-found. -/
theorem claim_C6_theorem :
    ∀ (st : ServerState) (id : String) (s : Session) (wd : Path),
      getSession st id = some s →
      (∀ p ∈ s.cleanup, p ≠ [] → p ∉ (cleanupSession st id).fsys)
      ∧ getSession (cleanupSession st id) id = none
      ∧ (zipPathOf wd id ∈ st.fsys →
          (downloadHandler wd st id).1 = DownloadOutcome.served
          ∧ getSession (downloadHandler wd st id).2 id = none
          ∧ ∀ p ∈ s.cleanup, p ≠ [] → p ∉ (downloadHandler wd st id).2.fsys) := by
  intro st id s wd hs
  have hcs : cleanupSession st id =
      { sessions := st.sessions.filter (fun e => !(e.1 == id))
        fsys := s.cleanup.foldl rmStep st.fsys } := by
    rw [cleanupSession, hs]
  have hclean : ∀ p ∈ s.cleanup, p ≠ [] → p ∉ (cleanupSession st id).fsys := by
    intro p hp hne
    rw [hcs]
    exact fold_rm_removed s.cleanup st.fsys p hp hne
  refine ⟨hclean, getSession_cleanup st id, ?_⟩
  intro hzip
  have hdl : downloadHandler wd st id =
      (DownloadOutcome.served, cleanupSession st id) := by
    rw [downloadHandler, hs, if_pos hzip]
  rw [hdl]
  exact ⟨rfl, getSession_cleanup st id, hclean⟩

/-- Claim C6, witness: downloading `sampleState`'s archive destroys the
session: its registered upload path is gone and the session id no longer
resolves. -/
theorem claim_C6_wit :
    "up/m".data ∉ (cleanupSession sampleState "s1").fsys
    ∧ getSession (cleanupSession sampleState "s1") "s1" = none
    ∧ (downloadHandler "work".data sampleState "s1").1
        = DownloadOutcome.served := by
  have h := claim_C6_theorem sampleState "s1" sampleSession "work".data (by decide)
  exact ⟨h.1 "up/m".data (by decide) (by decide), h.2.1, (h.2.2 (by decide)).1⟩

/-- Claim C9, counterexample: a negative font size is not a positive
number, yet `Number(fontSize) || 48` keeps it (only `0`/`NaN` are falsy),
so the text layer carries font size `-5` rather than the default — the
constructed layer does not always carry a positive font size. -/
theorem claim_C9_cex :
    (buildSVGText [] 0 0 none (some (-5)) none).fontSize = -5
    ∧ ¬(0 < (buildSVGText [] 0 0 none (some (-5)) none).fontSize) := by
  refine ⟨by decide, by decide⟩

/-- Claim C9 (amended): the default font size 48 is applied when the font
size is absent, non-numeric, or zero; any other supplied value — including
a negative one — is kept, so the text layer's font size is always nonzero
but not necessarily positive; an absent color defaults to black. -/
theorem claim_C9_theorem :
    ∀ (text : Path) (x y : Int) (ff : Option String) (fs : Option Int)
      (col : Option String),
      (fs = none → (buildSVGText text x y ff fs col).fontSize = 48)
      ∧ (fs = some 0 → (buildSVGText text x y ff fs col).fontSize = 48)
      ∧ (∀ v : Int, fs = some v → v ≠ 0 →
          (buildSVGText text x y ff fs col).fontSize = v)
      ∧ (buildSVGText text x y ff fs col).fontSize ≠ 0
      ∧ (col = none → (buildSVGText text x y ff fs col).fill = "#000000") := by
  intro text x y ff fs col
  refine ⟨?_, ?_, ?_, ?_, ?_⟩
  · rintro rfl
    rfl
  · rintro rfl
    rfl
  · rintro v rfl hv
    show (if v = 0 then 48 else v) = v
    rw [if_neg hv]
  · rcases fs with _ | v
    · show (48 : Int) ≠ 0
      decide
    · show (if v = 0 then 48 else v) ≠ 0
      split_ifs with h
      · decide
      · exact h
  · rintro rfl
    rfl

/-- Claim C9, witness: an absent font size defaults to 48, a supplied
nonzero value is kept, and an absent color defaults to black. -/
theorem claim_C9_wit :
    (buildSVGText [] 0 0 none none none).fontSize = 48
    ∧ (buildSVGText [] 0 0 none (some 7) none).fontSize = 7
    ∧ (buildSVGText [] 0 0 none none none).fill = "#000000" :=
  ⟨(claim_C9_theorem [] 0 0 none none none).1 rfl,
   (claim_C9_theorem [] 0 0 none (some 7) none).2.2.1 7 rfl (by decide),
   (claim_C9_theorem [] 0 0 none none none).2.2.2.2 rfl⟩

/-- Claim C10: the preview endpoint always renders the first extracted
name of the session; the request parameters only steer position, font,
size and color — for any two parameter sets the rendered text is the same
escaped first name. -/
theorem claim_C10_theorem :
    ∀ (s : Session) (p q : OverlayParams),
      s.modelPath ≠ none → s.names ≠ [] →
      testHandler (some s) p = Except.ok
        (buildSVGText (s.names.headD []) p.x p.y p.fontFamily p.fontSize p.color)
      ∧ (testHandler (some s) p).map SVGSpec.text
          = Except.ok (escapeText (s.names.headD []))
      ∧ (testHandler (some s) p).map SVGSpec.text
          = (testHandler (some s) q).map SVGSpec.text := by
  intro s p q h1 h2
  have hok : ∀ r : OverlayParams,
      testHandler (some s) r = Except.ok
        (buildSVGText (s.names.headD []) r.x r.y r.fontFamily r.fontSize
          r.color) := by
    intro r
    show (if s.modelPath = none ∨ s.names = [] then
        Except.error "Missing model or names"
      else Except.ok (buildSVGText (s.names.headD []) r.x r.y r.fontFamily
        r.fontSize r.color)) = _
    rw [if_neg]
    rintro (h | h)
    · exact h1 h
    · exact h2 h
  refine ⟨hok p, ?_, ?_⟩
  · rw [hok p]
    rfl
  · rw [hok p, hok q]
    rfl

/-- Claim C10, witness: on `sampleSession` two different parameter sets
both preview the first name `A`. -/
theorem claim_C10_wit :
    testHandler (some sampleSession) (OverlayParams.mk 1 2 none none none)
      = Except.ok (buildSVGText "A".data 1 2 none none none)
    ∧ (testHandler (some sampleSession)
          (OverlayParams.mk 1 2 none none none)).map SVGSpec.text
        = (testHandler (some sampleSession)
          (OverlayParams.mk 3 4 (some "Z") (some 9) (some "red"))).map
            SVGSpec.text := by
  have h := claim_C10_theorem sampleSession (OverlayParams.mk 1 2 none none none)
    (OverlayParams.mk 3 4 (some "Z") (some 9) (some "red")) (by decide) (by decide)
  exact ⟨h.1, h.2.2⟩

end Namster
